import Mathlib

/-!
# Verification of `optimize_data.py`

A shallow embedding of the stop-record optimisation script.  The script reads
`stops.txt` (a JSON array of stop objects), projects every record to the
abbreviated keys `i`, `n`, `l`, `o`, `c`, writes the result compactly to
`stops_lite.json` with `json.dump(..., separators=(',', ':'))`, and prints a
two-line size report.  Any exception is caught at top level and printed as
`Error: <message>`.

The data model restricts JSON values occurring inside a stop record to atoms
(null, booleans, strings, integers), matching the documented schema of the
input (`stop_id`, `name`, `lat`, `lon`, `locality` are all atomic).  Machine
floats are not modelled; numeric fields are embedded as integers.  The
serializer models `json.dump` with its default `ensure_ascii=True` escaping,
and the parser models `json.load` restricted to the compact
array-of-objects-of-atoms sublanguage that the serializer emits.
-/

/-- An atomic JSON value, as found in the fields of a stop record. -/
inductive JAtom where
  | null
  | bool (b : Bool)
  | str (s : String)
  | num (n : Int)
deriving DecidableEq, Repr

/-- A JSON object, as produced by `json.load`: an insertion-ordered
dictionary, embedded as an association list. -/
abbrev JObj := List (String × JAtom)

/-! ## Serialization: `json.dump(lite_data, f, separators=(',', ':'))` -/

/-- The four hex digits of `\uXXXX` escapes (lowercase, as CPython emits). -/
def hex4 (n : Nat) : List Char :=
  [Nat.digitChar (n / 4096 % 16), Nat.digitChar (n / 256 % 16),
   Nat.digitChar (n / 16 % 16), Nat.digitChar (n % 16)]

/-- How CPython's `json` encoder (`ensure_ascii=True`) renders one character
of a string: `"` and `\` get a backslash escape, the common control
characters get their short escapes, other control characters and all
non-ASCII characters become `\uXXXX` (astral characters become a surrogate
pair), and printable ASCII is emitted verbatim. -/
def escapeChar (c : Char) : List Char :=
  if c = '"' then ['\\', '"']
  else if c = '\\' then ['\\', '\\']
  else if c = '\n' then ['\\', 'n']
  else if c = '\t' then ['\\', 't']
  else if c = '\r' then ['\\', 'r']
  else if c = '\x08' then ['\\', 'b']
  else if c = '\x0c' then ['\\', 'f']
  else if c.toNat < 32 then '\\' :: 'u' :: hex4 c.toNat
  else if c.toNat < 127 then [c]
  else if c.toNat < 65536 then '\\' :: 'u' :: hex4 c.toNat
  else
    ('\\' :: 'u' :: hex4 (55296 + (c.toNat - 65536) / 1024)) ++
    ('\\' :: 'u' :: hex4 (56320 + (c.toNat - 65536) % 1024))

/-- Escape every character of a string body. -/
def escapeChars : List Char → List Char
  | [] => []
  | c :: cs => escapeChar c ++ escapeChars cs

/-- A JSON string literal: quote, escaped body, quote. -/
def strChars (s : String) : List Char :=
  '"' :: (escapeChars s.data ++ ['"'])

/-- Decimal digits of a natural number, most significant first
(`str(n)` for `n > 0`); the fuel argument makes the recursion structural. -/
def natToCharsAux : Nat → Nat → List Char → List Char
  | 0, _, acc => acc
  | fuel + 1, n, acc =>
    if n = 0 then acc
    else natToCharsAux fuel (n / 10) (Nat.digitChar (n % 10) :: acc)

/-- `str(n)` for a natural number. -/
def natToChars (n : Nat) : List Char :=
  if n = 0 then ['0'] else natToCharsAux n n []

/-- `str(i)` for a Python integer, as `json.dump` renders it. -/
def intToChars (i : Int) : List Char :=
  if i < 0 then '-' :: natToChars i.natAbs else natToChars i.natAbs

/-- Serialize one atomic value the way `json.dump` does. -/
def serializeAtom : JAtom → List Char
  | .str s => strChars s
  | .num i => intToChars i
  | .null => "null".data
  | .bool true => "true".data
  | .bool false => "false".data

/-- One `"key":value` pair, with the `':'` item separator of
`separators=(',', ':')`. -/
def serializeEntry (kv : String × JAtom) : List Char :=
  strChars kv.1 ++ ':' :: serializeAtom kv.2

/-- The comma-separated entries of an object (no whitespace: the `','`
element separator of `separators=(',', ':')`). -/
def serializeEntries : JObj → List Char
  | [] => []
  | [kv] => serializeEntry kv
  | kv :: kv2 :: rest => serializeEntry kv ++ ',' :: serializeEntries (kv2 :: rest)

/-- A serialized JSON object. -/
def serializeObj (o : JObj) : List Char :=
  '{' :: (serializeEntries o ++ ['}'])

/-- The comma-separated elements of the top-level array. -/
def serializeElems : List JObj → List Char
  | [] => []
  | [o] => serializeObj o
  | o :: o2 :: rest => serializeObj o ++ ',' :: serializeElems (o2 :: rest)

/-- `json.dump(lite_data, f, separators=(',', ':'))` as a character list:
the compact serialization of an array of objects. -/
def serializeArr (objs : List JObj) : List Char :=
  '[' :: (serializeElems objs ++ [']'])

/-! ## Deserialization: `json.load` on the emitted sublanguage -/

/-- Digit value of an ASCII digit character. -/
def charToDigit (c : Char) : Nat := c.toNat - 48

/-- Split a leading run of ASCII digits off a character stream. -/
def takeDigits : List Char → (List Nat × List Char)
  | [] => ([], [])
  | c :: cs =>
    if c.isDigit then
      let p := takeDigits cs
      (charToDigit c :: p.1, p.2)
    else ([], c :: cs)

/-- Recombine a most-significant-first digit list into a natural number. -/
def digitsToNat (ds : List Nat) : Nat := ds.foldl (fun a d => a * 10 + d) 0

/-- A digit string the JSON grammar admits: nonempty, and no leading zero
unless it is the single digit 0. -/
def noLeadZero (ds : List Nat) : Bool :=
  match ds with
  | [] => false
  | d :: tl => decide (d ≠ 0) || tl.isEmpty

/-- Parse a (possibly negative) integer literal, rejecting the
leading-zero forms `json.load` rejects. -/
def parseNumber (cs : List Char) : Option (JAtom × List Char) :=
  match cs with
  | [] => none
  | c :: cs1 =>
    if c = '-' then
      let p := takeDigits cs1
      if noLeadZero p.1 then some (.num (-(digitsToNat p.1 : Int)), p.2)
      else none
    else
      let p := takeDigits (c :: cs1)
      if noLeadZero p.1 then some (.num ((digitsToNat p.1 : Int)), p.2)
      else none

/-- Value of a hex digit character, if it is one. -/
def hexDigitVal (c : Char) : Option Nat :=
  if 48 ≤ c.toNat ∧ c.toNat ≤ 57 then some (c.toNat - 48)
  else if 97 ≤ c.toNat ∧ c.toNat ≤ 102 then some (c.toNat - 87)
  else if 65 ≤ c.toNat ∧ c.toNat ≤ 70 then some (c.toNat - 55)
  else none

/-- Combined value of a `\uXXXX` escape. -/
def hexVal (h1 h2 h3 h4 : Char) : Option Nat := do
  let a ← hexDigitVal h1
  let b ← hexDigitVal h2
  let c ← hexDigitVal h3
  let d ← hexDigitVal h4
  some (a * 4096 + b * 256 + c * 16 + d)

/-- The character denoted by a short backslash escape. -/
def unescapeChar (e : Char) : Option Char :=
  if e = '"' then some '"'
  else if e = '\\' then some '\\'
  else if e = '/' then some '/'
  else if e = 'n' then some '\n'
  else if e = 't' then some '\t'
  else if e = 'r' then some '\r'
  else if e = 'b' then some '\x08'
  else if e = 'f' then some '\x0c'
  else none

/-- First pass of string-body parsing: scan up to the closing quote,
collecting one numeric code unit per character or escape (a `\uXXXX`
escape contributes its raw value, surrogates included), and rejecting the
raw control characters `json.load` rejects in strict mode. -/
def parseStrBodyRaw : List Char → Option (List Nat × List Char)
  | [] => none
  | c :: cs =>
    if c = '"' then some ([], cs)
    else if c = '\\' then
      match cs with
      | [] => none
      | e :: cs2 =>
        if e = 'u' then
          match cs2 with
          | h1 :: h2 :: h3 :: h4 :: cs3 => do
            let n ← hexVal h1 h2 h3 h4
            let p ← parseStrBodyRaw cs3
            some (n :: p.1, p.2)
          | _ => none
        else do
          let u ← unescapeChar e
          let p ← parseStrBodyRaw cs2
          some (u.toNat :: p.1, p.2)
    else if c.toNat < 32 then none
    else do
      let p ← parseStrBodyRaw cs
      some (c.toNat :: p.1, p.2)

/-- Second pass: recombine a high-surrogate/low-surrogate pair into one
astral character, exactly as `json.load` does.  Lone surrogates, which
CPython would store as lone surrogates in a `str`, have no `Char`
counterpart and are rejected. -/
def combineSurrogates : List Nat → Option (List Char)
  | [] => some []
  | n :: rest =>
    if 55296 ≤ n ∧ n ≤ 56319 then
      match rest with
      | [] => none
      | m :: rest2 =>
        if 56320 ≤ m ∧ m ≤ 57343 then
          (combineSurrogates rest2).map
            (fun s => Char.ofNat (65536 + (n - 55296) * 1024 + (m - 56320)) :: s)
        else none
    else if 56320 ≤ n ∧ n ≤ 57343 then none
    else (combineSurrogates rest).map (fun s => Char.ofNat n :: s)

/-- Parse a string body up to the closing quote, undoing the escapes the
way `json.load` does: scan the code units, then recombine surrogate
pairs. -/
def parseStrBody (cs : List Char) : Option (List Char × List Char) :=
  match parseStrBodyRaw cs with
  | none => none
  | some (ns, r) =>
    match combineSurrogates ns with
    | none => none
    | some s => some (s, r)

/-- Consume an expected literal tail (for `null`, `true`, `false`). -/
def dropLit : List Char → List Char → Option (List Char)
  | [], cs => some cs
  | l :: ls, c :: cs => if c = l then dropLit ls cs else none
  | _ :: _, [] => none

/-- Parse one atomic value. -/
def parseAtomFn (cs : List Char) : Option (JAtom × List Char) :=
  match cs with
  | [] => none
  | c :: cs1 =>
    if c = '"' then
      match parseStrBody cs1 with
      | none => none
      | some (body, r) => some (.str (String.mk body), r)
    else if c = 'n' then (dropLit ['u', 'l', 'l'] cs1).map (fun r => (.null, r))
    else if c = 't' then (dropLit ['r', 'u', 'e'] cs1).map (fun r => (.bool true, r))
    else if c = 'f' then (dropLit ['a', 'l', 's', 'e'] cs1).map (fun r => (.bool false, r))
    else parseNumber (c :: cs1)

/-- Parse the `"key":value` entries of an object, consuming the closing
brace; fuel bounds the number of entries. -/
def parseEntries : Nat → List Char → Option (JObj × List Char)
  | 0, _ => none
  | fuel + 1, cs =>
    match cs with
    | [] => none
    | c :: cs1 =>
      if c = '"' then
        match parseStrBody cs1 with
        | none => none
        | some (k, cs2) =>
          match cs2 with
          | [] => none
          | c2 :: cs3 =>
            if c2 = ':' then
              match parseAtomFn cs3 with
              | none => none
              | some (v, cs4) =>
                match cs4 with
                | [] => none
                | c3 :: cs5 =>
                  if c3 = ',' then
                    match parseEntries fuel cs5 with
                    | none => none
                    | some (es, r) => some ((String.mk k, v) :: es, r)
                  else if c3 = '}' then some ([(String.mk k, v)], cs5)
                  else none
            else none
      else none

/-- Parse one object, `{}` or `{entries}`. -/
def parseObjAt (fuel : Nat) (cs : List Char) : Option (JObj × List Char) :=
  match cs with
  | [] => none
  | c :: cs1 =>
    if c = '{' then
      match cs1 with
      | [] => none
      | c2 :: cs2 => if c2 = '}' then some ([], cs2) else parseEntries fuel cs1
    else none

/-- Parse the comma-separated objects of the array, consuming the closing
bracket; fuel bounds the recursion. -/
def parseElems : Nat → List Char → Option (List JObj × List Char)
  | 0, _ => none
  | fuel + 1, cs =>
    match parseObjAt fuel cs with
    | none => none
    | some (o, cs1) =>
      match cs1 with
      | [] => none
      | c :: cs2 =>
        if c = ',' then
          match parseElems fuel cs2 with
          | none => none
          | some (os, r) => some (o :: os, r)
        else if c = ']' then some ([o], cs2)
        else none

/-- `json.load` restricted to the compact array-of-objects-of-atoms
sublanguage that the script's `json.dump` call emits (no insignificant
whitespace, atomic field values).  Inputs outside this sublanguage are
rejected; the pipeline model maps that rejection to its parse-error case. -/
def parseStops (cs : List Char) : Option (List JObj) :=
  match cs with
  | [] => none
  | c :: cs1 =>
    if c = '[' then
      match cs1 with
      | [] => none
      | c2 :: cs2 =>
        if c2 = ']' then (if cs2 = [] then some [] else none)
        else
          match parseElems cs.length cs1 with
          | none => none
          | some (os, r) => if r = [] then some os else none
    else none

/-! ## The projection loop -/

/-- The exceptions the script can hit, by class.  `keyError` models a
`KeyError` from `stop['...']`, `ioError` an `OSError` from `open`, and
`parseError` a `json.JSONDecodeError` (whose position details are not
modelled). -/
inductive PyErr where
  | keyError (k : String)
  | ioError (msg : String)
  | parseError (msg : String)
deriving DecidableEq, Repr

/-- `str(e)` for each exception: `str(KeyError(k))` is the `repr` of the
key, i.e. the key in single quotes. -/
def errMsg : PyErr → String
  | .keyError k => "'" ++ k ++ "'"
  | .ioError m => m
  | .parseError m => m

/-- `stop[k]`: dictionary subscription, raising `KeyError(k)` when absent. -/
def getItem (stop : JObj) (k : String) : Except PyErr JAtom :=
  match stop.lookup k with
  | some v => .ok v
  | none => .error (.keyError k)

/-- `stop.get(k, d)`: returns the stored value when the key is present
(even when that value is `None`), the default only when the key is absent. -/
def dictGet (stop : JObj) (k : String) (d : JAtom) : JAtom :=
  (stop.lookup k).getD d

/-- The four required fields, in the evaluation order of the dict literal. -/
def requiredKeys : List String := ["stop_id", "name", "lat", "lon"]

/-- The body of the loop: build one lite record
`{'i': stop['stop_id'], 'n': stop['name'], 'l': stop['lat'],
'o': stop['lon'], 'c': stop.get('locality', '')}`, evaluating the values
left to right and raising on the first missing required key. -/
def projectStop (stop : JObj) : Except PyErr JObj :=
  match getItem stop "stop_id" with
  | .error e => .error e
  | .ok i =>
    match getItem stop "name" with
    | .error e => .error e
    | .ok n =>
      match getItem stop "lat" with
      | .error e => .error e
      | .ok l =>
        match getItem stop "lon" with
        | .error e => .error e
        | .ok o =>
          .ok [("i", i), ("n", n), ("l", l), ("o", o),
               ("c", dictGet stop "locality" (.str ""))]

/-- The `for stop in data` loop: append one projected record per input
record, aborting the run on the first exception. -/
def projectAll : List JObj → Except PyErr (List JObj)
  | [] => .ok []
  | stop :: rest =>
    match projectStop stop with
    | .error e => .error e
    | .ok x =>
      match projectAll rest with
      | .error e => .error e
      | .ok xs => .ok (x :: xs)

/-! ## The file system and the whole run -/

/-- The file system visible to the script: paths mapped to character
contents; `writeFile` shadows, `readFile` takes the most recent write. -/
abbrev FS := List (String × List Char)

/-- Read a file's content, `none` when the path does not exist. -/
def readFile (fs : FS) (p : String) : Option (List Char) := fs.lookup p

/-- Replace a file's content. -/
def writeFile (fs : FS) (p : String) (content : List Char) : FS :=
  (p, content) :: fs

/-- The fixed input path of the script. -/
def inputPath : String := "stops.txt"

/-- The fixed output path of the script. -/
def outputPath : String := "stops_lite.json"

/-- `os.path.getsize` on a text file written with `encoding='utf-8'`:
the UTF-8 byte length of the content. -/
def byteSize (cs : List Char) : Nat := (cs.map Char.utf8Size).sum

/-- Round `num / den` to the nearest integer, ties to even — what
`f"{x:.2f}"` does to the exact value of the float `x` (byte counts below
2^53 divided by 1024 twice are exact floats). -/
def roundHalfEven (num den : Nat) : Nat :=
  let q := num / den
  let r := num % den
  if 2 * r < den then q
  else if den < 2 * r then q + 1
  else if q % 2 = 0 then q else q + 1

/-- Two-digit zero-padded fractional part. -/
def pad2 (m : Nat) : String :=
  if m < 10 then "0" ++ toString m else toString m

/-- `f"{bytes/1024/1024:.2f}"`: megabytes with two decimal places. -/
def fmtMB (bytes : Nat) : String :=
  let h := roundHalfEven (bytes * 100) 1048576
  toString (h / 100) ++ "." ++ pad2 (h % 100)

/-- The two report lines printed on success. -/
def sizeReport (inBytes outBytes : Nat) : List String :=
  ["Optimization complete. Original size: " ++ fmtMB inBytes ++ "MB",
   "New size: " ++ fmtMB outBytes ++ "MB"]

/-- The body of the `try` block: load, project, write, report.  Every
exception escapes before the output file is opened for writing, so the
error cases leave the file system untouched. -/
def pipeline (fs0 : FS) : Except PyErr (FS × List String) :=
  match readFile fs0 inputPath with
  | none => .error (.ioError "[Errno 2] No such file or directory: 'stops.txt'")
  | some content =>
    match parseStops content with
    | none => .error (.parseError "Expecting value: line 1 column 1 (char 0)")
    | some data =>
      match projectAll data with
      | .error e => .error e
      | .ok lite =>
        .ok (writeFile fs0 outputPath (serializeArr lite),
             sizeReport (byteSize content) (byteSize (serializeArr lite)))

/-- The observable outcome of one run: the final file system and the lines
printed to standard output. -/
structure RunOut where
  fs : FS
  stdout : List String
deriving DecidableEq, Repr

/-- The whole script: the `try` body with the top-level
`except Exception as e: print(f"Error: {e}")`. -/
def runScript (fs0 : FS) : RunOut :=
  match pipeline fs0 with
  | .ok (fs1, lines) => ⟨fs1, lines⟩
  | .error e => ⟨fs0, ["Error: " ++ errMsg e]⟩

/-- The intermediate file-system states of
`with open('stops_lite.json', 'w', ...) as f: json.dump(lite_data, f, ...)`:
opening with mode `'w'` truncates the file at once, and the dump then
appends, so state `k` holds the first `k` characters of the new content. -/
def writeTrace (fs : FS) (content : List Char) : List FS :=
  (List.range (content.length + 1)).map
    (fun k => writeFile fs outputPath (content.take k))

/-! ## Supporting lemmas about the projection -/

theorem projectStop_of_lookups {stop : JObj} {i n l o : JAtom}
    (hi : List.lookup "stop_id" stop = some i)
    (hn : List.lookup "name" stop = some n)
    (hl : List.lookup "lat" stop = some l)
    (ho : List.lookup "lon" stop = some o) :
    projectStop stop =
      .ok [("i", i), ("n", n), ("l", l), ("o", o),
           ("c", dictGet stop "locality" (.str ""))] := by
  simp [projectStop, getItem, hi, hn, hl, ho]

theorem projectStop_ok_shape {stop lite : JObj}
    (h : projectStop stop = .ok lite) :
    ∃ i n l o, List.lookup "stop_id" stop = some i ∧
      List.lookup "name" stop = some n ∧
      List.lookup "lat" stop = some l ∧
      List.lookup "lon" stop = some o ∧
      lite = [("i", i), ("n", n), ("l", l), ("o", o),
              ("c", dictGet stop "locality" (.str ""))] := by
  cases hi : List.lookup "stop_id" stop with
  | none => simp [projectStop, getItem, hi] at h
  | some i =>
    cases hn : List.lookup "name" stop with
    | none => simp [projectStop, getItem, hi, hn] at h
    | some n =>
      cases hl : List.lookup "lat" stop with
      | none => simp [projectStop, getItem, hi, hn, hl] at h
      | some l =>
        cases ho : List.lookup "lon" stop with
        | none => simp [projectStop, getItem, hi, hn, hl, ho] at h
        | some o =>
          refine ⟨i, n, l, o, rfl, rfl, rfl, rfl, ?_⟩
          rw [projectStop_of_lookups hi hn hl ho] at h
          exact (Except.ok.inj h).symm

theorem projectStop_error_shape {stop : JObj} {e : PyErr}
    (h : projectStop stop = .error e) :
    ∃ k, k ∈ requiredKeys ∧ e = .keyError k ∧ List.lookup k stop = none := by
  cases hi : List.lookup "stop_id" stop with
  | none =>
    refine ⟨"stop_id", by simp [requiredKeys], ?_, hi⟩
    simp [projectStop, getItem, hi] at h
    exact h.symm
  | some i =>
    cases hn : List.lookup "name" stop with
    | none =>
      refine ⟨"name", by simp [requiredKeys], ?_, hn⟩
      simp [projectStop, getItem, hi, hn] at h
      exact h.symm
    | some n =>
      cases hl : List.lookup "lat" stop with
      | none =>
        refine ⟨"lat", by simp [requiredKeys], ?_, hl⟩
        simp [projectStop, getItem, hi, hn, hl] at h
        exact h.symm
      | some l =>
        cases ho : List.lookup "lon" stop with
        | none =>
          refine ⟨"lon", by simp [requiredKeys], ?_, ho⟩
          simp [projectStop, getItem, hi, hn, hl, ho] at h
          exact h.symm
        | some o =>
          rw [projectStop_of_lookups hi hn hl ho] at h
          exact absurd h (by simp)

theorem projectStop_ok_required {stop lite : JObj}
    (h : projectStop stop = .ok lite) :
    ∀ k ∈ requiredKeys, (List.lookup k stop).isSome := by
  obtain ⟨i, n, l, o, hi, hn, hl, ho, -⟩ := projectStop_ok_shape h
  intro k hk
  simp only [requiredKeys, List.mem_cons, List.not_mem_nil, or_false] at hk
  rcases hk with rfl | rfl | rfl | rfl <;> simp [hi, hn, hl, ho]

theorem projectAll_error_of_missing {data : List JObj}
    (h : ∃ stop ∈ data, ∃ k ∈ requiredKeys, List.lookup k stop = none) :
    ∃ k, k ∈ requiredKeys ∧ projectAll data = .error (.keyError k) := by
  induction data with
  | nil => simp at h
  | cons stop rest ih =>
    cases hps : projectStop stop with
    | error e =>
      obtain ⟨k, hk, rfl, -⟩ := projectStop_error_shape hps
      exact ⟨k, hk, by simp [projectAll, hps]⟩
    | ok x =>
      have hrest : ∃ s ∈ rest, ∃ k ∈ requiredKeys, List.lookup k s = none := by
        rcases h with ⟨s, hs, k, hk, hnone⟩
        rcases List.mem_cons.mp hs with rfl | hs'
        · have := projectStop_ok_required hps k hk
          rw [hnone] at this
          simp at this
        · exact ⟨s, hs', k, hk, hnone⟩
      obtain ⟨k, hk, herr⟩ := ih hrest
      exact ⟨k, hk, by simp [projectAll, hps, herr]⟩

/-! ## Supporting lemmas about the run -/

theorem readFile_writeFile_same (fs : FS) (p : String) (v : List Char) :
    readFile (writeFile fs p v) p = some v := by
  simp [readFile, writeFile, List.lookup]

theorem readFile_writeFile_other (fs : FS) (p q : String) (v : List Char)
    (h : q ≠ p) : readFile (writeFile fs p v) q = readFile fs q := by
  have hb : (q == p) = false := beq_eq_false_iff_ne.mpr h
  simp [readFile, writeFile, List.lookup, hb]

theorem pipeline_cases (fs : FS) :
    (∃ e, pipeline fs = .error e) ∨
    (∃ out lines, pipeline fs = .ok (writeFile fs outputPath out, lines)) := by
  cases hr : readFile fs inputPath with
  | none =>
    exact .inl ⟨.ioError "[Errno 2] No such file or directory: 'stops.txt'",
      by simp [pipeline, hr]⟩
  | some content =>
    cases hp : parseStops content with
    | none =>
      exact .inl ⟨.parseError "Expecting value: line 1 column 1 (char 0)",
        by simp [pipeline, hr, hp]⟩
    | some data =>
      cases hj : projectAll data with
      | error e => exact .inl ⟨e, by simp [pipeline, hr, hp, hj]⟩
      | ok lite =>
        exact .inr ⟨serializeArr lite,
          sizeReport (byteSize content) (byteSize (serializeArr lite)),
          by simp [pipeline, hr, hp, hj]⟩

/-! ## Claim theorems -/

/-- Demonstration input record used by the witnesses. -/
def wStop : JObj :=
  [("stop_id", .str "42"), ("name", .str "Main St"), ("lat", .num 40),
   ("lon", .num (-73)), ("locality", .str "Springfield")]

/-- Its projection. -/
def wLite : JObj :=
  [("i", .str "42"), ("n", .str "Main St"), ("l", .num 40),
   ("o", .num (-73)), ("c", .str "Springfield")]

/-- C1: for every input record that contains the four required fields, the
output record's values at `i`, `n`, `l`, `o` are exactly the input record's
values at `stop_id`, `name`, `lat`, `lon`, unmodified. -/
theorem c1_value_preserving_rename (stop : JObj)
    (h : ∀ k ∈ requiredKeys, (List.lookup k stop).isSome) :
    ∃ lite, projectStop stop = .ok lite ∧
      List.lookup "i" lite = List.lookup "stop_id" stop ∧
      List.lookup "n" lite = List.lookup "name" stop ∧
      List.lookup "l" lite = List.lookup "lat" stop ∧
      List.lookup "o" lite = List.lookup "lon" stop := by
  obtain ⟨i, hi⟩ := Option.isSome_iff_exists.mp (h "stop_id" (by simp [requiredKeys]))
  obtain ⟨n, hn⟩ := Option.isSome_iff_exists.mp (h "name" (by simp [requiredKeys]))
  obtain ⟨l, hl⟩ := Option.isSome_iff_exists.mp (h "lat" (by simp [requiredKeys]))
  obtain ⟨o, ho⟩ := Option.isSome_iff_exists.mp (h "lon" (by simp [requiredKeys]))
  refine ⟨_, projectStop_of_lookups hi hn hl ho, ?_, ?_, ?_, ?_⟩ <;>
    simp [List.lookup, hi, hn, hl, ho]

theorem c1_witness :
    ∃ lite, projectStop wStop = .ok lite ∧
      List.lookup "i" lite = List.lookup "stop_id" wStop ∧
      List.lookup "n" lite = List.lookup "name" wStop ∧
      List.lookup "l" lite = List.lookup "lat" wStop ∧
      List.lookup "o" lite = List.lookup "lon" wStop :=
  c1_value_preserving_rename wStop (by decide)

/-- C2: projecting a valid input sequence of length N yields an output
sequence of length N whose k-th record is the projection of the k-th input
record. -/
theorem c2_length_and_order (data lite : List JObj)
    (h : projectAll data = .ok lite) :
    lite.length = data.length ∧
    ∀ k, k < data.length →
      ∃ stop out, data.get? k = some stop ∧ lite.get? k = some out ∧
        projectStop stop = .ok out := by
  induction data generalizing lite with
  | nil =>
    simp only [projectAll] at h
    obtain rfl := (Except.ok.inj h).symm
    exact ⟨rfl, fun k hk => by simp at hk⟩
  | cons stop rest ih =>
    cases hps : projectStop stop with
    | error e => simp [projectAll, hps] at h
    | ok x =>
      cases hpr : projectAll rest with
      | error e => simp [projectAll, hps, hpr] at h
      | ok xs =>
        simp only [projectAll, hps, hpr] at h
        obtain rfl := (Except.ok.inj h).symm
        obtain ⟨ihlen, ihget⟩ := ih xs hpr
        refine ⟨by simp [ihlen], ?_⟩
        intro k hk
        cases k with
        | zero => exact ⟨stop, x, rfl, rfl, hps⟩
        | succ k =>
          obtain ⟨s, out, h1, h2, h3⟩ := ihget k (by simpa using hk)
          exact ⟨s, out, by simpa using h1, by simpa using h2, h3⟩

theorem c2_witness :
    ([wStop].length = 1) ∧
    ((projectAll [wStop] = .ok [wLite]) ∧
      ([wLite].length = [wStop].length ∧
        ∀ k, k < [wStop].length →
          ∃ stop out, [wStop].get? k = some stop ∧ [wLite].get? k = some out ∧
            projectStop stop = .ok out)) :=
  ⟨rfl, rfl, c2_length_and_order [wStop] [wLite] rfl⟩

/-- A record whose `locality` field is present but null, as JSON permits. -/
def nullLocalityStop : JObj :=
  [("stop_id", .str "7"), ("name", .str "Elm Ave"), ("lat", .num 41),
   ("lon", .num (-72)), ("locality", .null)]

/-- C3 counterexample: on a record whose `locality` is present and null,
`stop.get('locality', '')` returns the stored null, so the output `c` is
null, not the empty string the claim requires. -/
theorem c3_counterexample :
    projectStop nullLocalityStop =
      .ok [("i", .str "7"), ("n", .str "Elm Ave"), ("l", .num 41),
           ("o", .num (-72)), ("c", .null)] ∧
    List.lookup "locality" nullLocalityStop = some JAtom.null ∧
    List.lookup "c" [("i", JAtom.str "7"), ("n", JAtom.str "Elm Ave"),
        ("l", JAtom.num 41), ("o", JAtom.num (-72)), ("c", JAtom.null)] =
      some JAtom.null ∧
    JAtom.null ≠ JAtom.str "" :=
  ⟨rfl, by decide, by decide, by decide⟩

/-- C3 amended: if `locality` is present, output `c` equals its stored
value exactly — even when that value is null; only when `locality` is
absent does `c` default to the empty string. -/
theorem c3_amended_locality_default (stop lite : JObj)
    (h : projectStop stop = .ok lite) :
    (∀ v, List.lookup "locality" stop = some v →
      List.lookup "c" lite = some v) ∧
    (List.lookup "locality" stop = none →
      List.lookup "c" lite = some (JAtom.str "")) := by
  obtain ⟨i, n, l, o, -, -, -, -, rfl⟩ := projectStop_ok_shape h
  constructor
  · intro v hv
    simp [List.lookup, dictGet, hv]
  · intro hv
    simp [List.lookup, dictGet, hv]

theorem c3_amended_witness :
    (∀ v, List.lookup "locality" nullLocalityStop = some v →
      List.lookup "c" [("i", JAtom.str "7"), ("n", JAtom.str "Elm Ave"),
          ("l", JAtom.num 41), ("o", JAtom.num (-72)), ("c", JAtom.null)] =
        some v) ∧
    (List.lookup "locality" nullLocalityStop = none →
      List.lookup "c" [("i", JAtom.str "7"), ("n", JAtom.str "Elm Ave"),
          ("l", JAtom.num 41), ("o", JAtom.num (-72)), ("c", JAtom.null)] =
        some (JAtom.str "")) :=
  c3_amended_locality_default nullLocalityStop _ rfl

/-- C6: when the input parses but some record lacks one of the four
required fields, the whole run aborts with a `KeyError`-class message
naming a required field, and the file system — in particular the output
artifact — is left untouched. -/
theorem c6_missing_field_aborts (fs : FS) (content : List Char)
    (data : List JObj)
    (hread : readFile fs inputPath = some content)
    (hparse : parseStops content = some data)
    (hmiss : ∃ stop ∈ data, ∃ k ∈ requiredKeys, List.lookup k stop = none) :
    ∃ k, k ∈ requiredKeys ∧
      (runScript fs).stdout = ["Error: " ++ errMsg (.keyError k)] ∧
      (runScript fs).fs = fs := by
  obtain ⟨k, hk, herr⟩ := projectAll_error_of_missing hmiss
  exact ⟨k, hk, by simp [runScript, pipeline, hread, hparse, herr],
    by simp [runScript, pipeline, hread, hparse, herr]⟩

/-- Input file content holding one record that lacks `stop_id`. -/
def wBadContent : List Char := serializeArr [[("name", .str "x")]]

theorem c6_witness :
    ∃ k, k ∈ requiredKeys ∧
      (runScript [(inputPath, wBadContent)]).stdout =
        ["Error: " ++ errMsg (.keyError k)] ∧
      (runScript [(inputPath, wBadContent)]).fs = [(inputPath, wBadContent)] :=
  c6_missing_field_aborts [(inputPath, wBadContent)] wBadContent
    [[("name", .str "x")]] rfl rfl
    ⟨[("name", .str "x")], by decide, "stop_id", by decide, by decide⟩

/-- C7: when the input path does not exist, the run prints exactly one
line `Error: <message>` carrying the `IOError`-class message of the failed
`open`, terminates normally, and leaves the file system untouched. -/
theorem c7_missing_input (fs : FS)
    (h : readFile fs inputPath = none) :
    (runScript fs).stdout =
      ["Error: " ++
        errMsg (.ioError "[Errno 2] No such file or directory: 'stops.txt'")] ∧
    (runScript fs).fs = fs := by
  constructor <;> simp [runScript, pipeline, h]

theorem c7_witness :
    (runScript []).stdout =
      ["Error: " ++
        errMsg (.ioError "[Errno 2] No such file or directory: 'stops.txt'")] ∧
    (runScript []).fs = [] :=
  c7_missing_input [] rfl

/-- C8: on a successful run exactly two lines are printed, reporting the
input and output artifact byte sizes, each divided by 1024 twice and
rendered with exactly two decimal digits. -/
theorem c8_size_report (fs : FS) (content : List Char) (data lite : List JObj)
    (hread : readFile fs inputPath = some content)
    (hparse : parseStops content = some data)
    (hproj : projectAll data = .ok lite) :
    (runScript fs).stdout =
      ["Optimization complete. Original size: " ++
        fmtMB (byteSize content) ++ "MB",
       "New size: " ++ fmtMB (byteSize (serializeArr lite)) ++ "MB"] ∧
    ∀ m : Nat, ∃ ip frac : String, fmtMB m = ip ++ "." ++ frac ∧
      frac.length = 2 ∧ frac.data.all Char.isDigit := by
  have pad : ∀ r < 100, (pad2 r).length = 2 ∧ (pad2 r).data.all Char.isDigit := by
    decide
  constructor
  · simp [runScript, pipeline, hread, hparse, hproj, sizeReport]
  · intro m
    obtain ⟨h2, h3⟩ :=
      pad (roundHalfEven (m * 100) 1048576 % 100) (Nat.mod_lt _ (by omega))
    exact ⟨toString (roundHalfEven (m * 100) 1048576 / 100),
      pad2 (roundHalfEven (m * 100) 1048576 % 100), rfl, h2, h3⟩

/-- Input file content holding the demonstration record. -/
def wContent : List Char := serializeArr [wStop]

theorem c8_witness :
    (runScript [(inputPath, wContent)]).stdout =
      ["Optimization complete. Original size: " ++
        fmtMB (byteSize wContent) ++ "MB",
       "New size: " ++ fmtMB (byteSize (serializeArr [wLite])) ++ "MB"] ∧
    ∀ m : Nat, ∃ ip frac : String, fmtMB m = ip ++ "." ++ frac ∧
      frac.length = 2 ∧ frac.data.all Char.isDigit :=
  c8_size_report [(inputPath, wContent)] wContent [wStop] [wLite] rfl rfl rfl

/-- A file system whose output file holds prior content `old`. -/
def c9PriorFs : FS := [(outputPath, ['o', 'l', 'd'])]

/-- C9 counterexample: the write is not atomic.  Writing the new
serialization `[]` over prior content `old` passes through the state
produced by `open(..., 'w')`, in which the output file has been truncated
to empty — neither its complete prior content nor the complete new
serialization. -/
theorem c9_counterexample :
    (writeTrace c9PriorFs ['[', ']']).head? =
      some (writeFile c9PriorFs outputPath []) ∧
    readFile (writeFile c9PriorFs outputPath []) outputPath = some [] ∧
    readFile c9PriorFs outputPath = some ['o', 'l', 'd'] ∧
    (['o', 'l', 'd'] : List Char) ≠ [] ∧ (['[', ']'] : List Char) ≠ [] := by
  refine ⟨?_, by decide, by decide, by decide, by decide⟩
  decide

/-- C9 amended: a completed run replaces the output file's content with
exactly the new serialization, but the write is not atomic: the file is
truncated the moment it is opened, and every intermediate state of the
write holds some prefix of the new content, the prior content being
already destroyed. -/
theorem c9_amended_full_replace_not_atomic (fs : FS) (content : List Char)
    (data lite : List JObj)
    (hread : readFile fs inputPath = some content)
    (hparse : parseStops content = some data)
    (hproj : projectAll data = .ok lite) :
    readFile (runScript fs).fs outputPath = some (serializeArr lite) ∧
    (writeTrace fs (serializeArr lite)).head? =
      some (writeFile fs outputPath []) ∧
    (writeTrace fs (serializeArr lite)).getLast? =
      some (writeFile fs outputPath (serializeArr lite)) ∧
    ∀ mid ∈ writeTrace fs (serializeArr lite),
      ∃ k, k ≤ (serializeArr lite).length ∧
        readFile mid outputPath = some ((serializeArr lite).take k) := by
  refine ⟨?_, ?_, ?_, ?_⟩
  · simp [runScript, pipeline, hread, hparse, hproj,
      readFile_writeFile_same]
  · rw [writeTrace, List.range_succ_eq_map]
    simp
  · rw [writeTrace, List.range_succ, List.map_append]
    simp [List.getLast?_concat, List.take_length]
  · intro mid hmid
    simp only [writeTrace, List.mem_map, List.mem_range] at hmid
    obtain ⟨k, hk, rfl⟩ := hmid
    exact ⟨k, by omega, readFile_writeFile_same fs outputPath _⟩

theorem c9_witness :
    readFile (runScript [(inputPath, wContent)]).fs outputPath =
      some (serializeArr [wLite]) ∧
    (writeTrace [(inputPath, wContent)] (serializeArr [wLite])).head? =
      some (writeFile [(inputPath, wContent)] outputPath []) ∧
    (writeTrace [(inputPath, wContent)] (serializeArr [wLite])).getLast? =
      some (writeFile [(inputPath, wContent)] outputPath
        (serializeArr [wLite])) ∧
    ∀ mid ∈ writeTrace [(inputPath, wContent)] (serializeArr [wLite]),
      ∃ k, k ≤ (serializeArr [wLite]).length ∧
        readFile mid outputPath = some ((serializeArr [wLite]).take k) :=
  c9_amended_full_replace_not_atomic [(inputPath, wContent)] wContent
    [wStop] [wLite] rfl rfl rfl

/-- C10: the run writes only to the output path: every other path — in
particular the input artifact — has the same content after the run as
before it, on success and on failure alike. -/
theorem c10_frame_only_output (fs : FS) :
    (∀ p, p ≠ outputPath →
      readFile (runScript fs).fs p = readFile fs p) ∧
    readFile (runScript fs).fs inputPath = readFile fs inputPath := by
  have key : ∀ p, p ≠ outputPath →
      readFile (runScript fs).fs p = readFile fs p := by
    intro p hp
    rcases pipeline_cases fs with ⟨e, he⟩ | ⟨out, lines, hok⟩
    · simp [runScript, he]
    · simp only [runScript, hok]
      exact readFile_writeFile_other fs outputPath p out hp
  exact ⟨key, key inputPath (by decide)⟩

theorem c10_witness :
    readFile (runScript [(inputPath, wContent)]).fs "other.txt" =
      readFile [(inputPath, wContent)] "other.txt" ∧
    readFile (runScript [(inputPath, wContent)]).fs inputPath =
      readFile [(inputPath, wContent)] inputPath :=
  ⟨(c10_frame_only_output [(inputPath, wContent)]).1 "other.txt" (by decide),
   (c10_frame_only_output [(inputPath, wContent)]).2⟩

/-! ## C5: compactness of the serialization -/

/-- The insignificant-whitespace characters of JSON. -/
def wsChar (c : Char) : Bool :=
  c == '\x20' || c == '\x0d' || c == '\x0a' || c == '\x09'

/-- Space characters inside an atom's character data. -/
def atomSpaces : JAtom → Nat
  | .str s => s.data.countP (fun c => c == ' ')
  | _ => 0

/-- Space characters inside one entry's key and value data. -/
def entrySpaces (kv : String × JAtom) : Nat :=
  kv.1.data.countP (fun c => c == ' ') + atomSpaces kv.2

/-- Space characters inside one record's string data. -/
def objSpaces (o : JObj) : Nat := (o.map entrySpaces).sum

/-- Space characters inside the whole dataset's string data. -/
def arrSpaces (objs : List JObj) : Nat := (objs.map objSpaces).sum

theorem wsChar_digitChar {r : Nat} (h : r < 16) :
    wsChar (Nat.digitChar r) = false := by
  have all : ∀ m, m < 16 → wsChar (Nat.digitChar m) = false := by decide
  exact all r h

theorem countWS_hex4 (n : Nat) : (hex4 n).countP wsChar = 0 := by
  have h1 := wsChar_digitChar (Nat.mod_lt (n / 4096) (by omega))
  have h2 := wsChar_digitChar (Nat.mod_lt (n / 256) (by omega))
  have h3 := wsChar_digitChar (Nat.mod_lt (n / 16) (by omega))
  have h4 := wsChar_digitChar (Nat.mod_lt n (by omega))
  simp [hex4, List.countP_cons, h1, h2, h3, h4]

theorem countWS_escapeChar (c : Char) :
    (escapeChar c).countP wsChar = if c = ' ' then 1 else 0 := by
  by_cases h1 : c = '"'
  · subst h1; decide
  by_cases h2 : c = '\\'
  · subst h2; decide
  by_cases h3 : c = '\n'
  · subst h3; decide
  by_cases h4 : c = '\t'
  · subst h4; decide
  by_cases h5 : c = '\r'
  · subst h5; decide
  by_cases h6 : c = '\x08'
  · subst h6; decide
  by_cases h7 : c = '\x0c'
  · subst h7; decide
  rw [escapeChar, if_neg h1, if_neg h2, if_neg h3, if_neg h4, if_neg h5,
    if_neg h6, if_neg h7]
  by_cases h8 : c.toNat < 32
  · have hne : ¬c = ' ' := by
      intro h; subst h; exact absurd h8 (by decide)
    rw [if_pos h8, if_neg hne]
    simp [List.countP_cons, countWS_hex4, wsChar]
  rw [if_neg h8]
  by_cases h9 : c.toNat < 127
  · rw [if_pos h9]
    by_cases hc : c = ' '
    · subst hc; decide
    · have hws : wsChar c = false := by
        simp [wsChar, beq_eq_false_iff_ne.mpr hc, beq_eq_false_iff_ne.mpr h3,
          beq_eq_false_iff_ne.mpr h4, beq_eq_false_iff_ne.mpr h5]
      rw [if_neg hc]
      simp [List.countP_cons, hws]
  have hne : ¬c = ' ' := by
    intro h; subst h; exact h9 (by decide)
  rw [if_neg h9, if_neg hne]
  by_cases h10 : c.toNat < 65536
  · rw [if_pos h10]
    simp [List.countP_cons, countWS_hex4, wsChar]
  · rw [if_neg h10]
    simp [List.countP_append, List.countP_cons, countWS_hex4, wsChar]

theorem countWS_escapeChars (s : List Char) :
    (escapeChars s).countP wsChar = s.countP (fun c => c == ' ') := by
  induction s with
  | nil => rfl
  | cons c cs ih =>
    rw [escapeChars, List.countP_append, ih, countWS_escapeChar,
      List.countP_cons]
    by_cases hc : c = ' '
    · simp only [if_pos hc, hc, beq_self_eq_true, if_true]
      omega
    · simp only [if_neg hc, beq_eq_false_iff_ne.mpr hc, Bool.false_eq_true,
        if_false]
      omega

theorem countWS_strChars (s : String) :
    (strChars s).countP wsChar = s.data.countP (fun c => c == ' ') := by
  simp [strChars, List.countP_cons, List.countP_append, countWS_escapeChars,
    wsChar]

theorem countWS_natToCharsAux (fuel : Nat) :
    ∀ n acc, (natToCharsAux fuel n acc).countP wsChar = acc.countP wsChar := by
  induction fuel with
  | zero => intro n acc; rfl
  | succ fuel ih =>
    intro n acc
    by_cases hn : n = 0
    · simp [natToCharsAux, hn]
    · have hd : wsChar (Nat.digitChar (n % 10)) = false :=
        wsChar_digitChar (by have := Nat.mod_lt n (show 0 < 10 by omega); omega)
      simp [natToCharsAux, hn, ih, List.countP_cons, hd]

theorem countWS_natToChars (n : Nat) : (natToChars n).countP wsChar = 0 := by
  by_cases hn : n = 0
  · subst hn; decide
  · simp [natToChars, hn, countWS_natToCharsAux]

theorem countWS_intToChars (i : Int) : (intToChars i).countP wsChar = 0 := by
  by_cases hi : i < 0
  · simp [intToChars, hi, List.countP_cons, countWS_natToChars, wsChar]
  · simp [intToChars, hi, countWS_natToChars]

theorem countWS_serializeAtom (a : JAtom) :
    (serializeAtom a).countP wsChar = atomSpaces a := by
  cases a with
  | null => rfl
  | bool b => cases b <;> rfl
  | str s => simpa [serializeAtom, atomSpaces] using countWS_strChars s
  | num i => simpa [serializeAtom, atomSpaces] using countWS_intToChars i

theorem countWS_serializeEntry (kv : String × JAtom) :
    (serializeEntry kv).countP wsChar = entrySpaces kv := by
  simp [serializeEntry, List.countP_append, List.countP_cons,
    countWS_strChars, countWS_serializeAtom, entrySpaces, wsChar]

theorem countWS_serializeEntries (es : JObj) :
    (serializeEntries es).countP wsChar = objSpaces es := by
  induction es with
  | nil => rfl
  | cons kv rest ih =>
    cases rest with
    | nil => simp [serializeEntries, countWS_serializeEntry, objSpaces]
    | cons kv2 rest' =>
      simp only [serializeEntries, List.countP_append, List.countP_cons,
        countWS_serializeEntry, ih]
      simp [objSpaces, wsChar]

theorem countWS_serializeObj (o : JObj) :
    (serializeObj o).countP wsChar = objSpaces o := by
  simp [serializeObj, List.countP_append, List.countP_cons,
    countWS_serializeEntries, wsChar]

theorem countWS_serializeElems (objs : List JObj) :
    (serializeElems objs).countP wsChar = arrSpaces objs := by
  induction objs with
  | nil => rfl
  | cons o rest ih =>
    cases rest with
    | nil => simp [serializeElems, countWS_serializeObj, arrSpaces]
    | cons o2 rest' =>
      simp only [serializeElems, List.countP_append, List.countP_cons,
        countWS_serializeObj, ih]
      simp [arrSpaces, wsChar]

/-- C5: the serialized artifact contains no extraneous whitespace: its
whitespace characters are exactly the space characters occurring inside
the string data of the records.  In particular the structural separators
`,` and `:` (emitted by `separators=(',', ':')`) and the brackets
contribute no whitespace at all. -/
theorem c5_compact_serialization (objs : List JObj) :
    (serializeArr objs).countP wsChar = arrSpaces objs := by
  simp [serializeArr, List.countP_append, List.countP_cons,
    countWS_serializeElems, wsChar]

/-! ## C4: the serialization round-trips through the parser -/

/-- The continuation after a serialized number never starts with a digit. -/
def noDigitHead (cs : List Char) : Prop :=
  cs.head?.all (fun c => !c.isDigit) = true

theorem hexDigitVal_digitChar {m : Nat} (h : m < 16) :
    hexDigitVal (Nat.digitChar m) = some m := by
  have all : ∀ k, k < 16 → hexDigitVal (Nat.digitChar k) = some k := by decide
  exact all m h

theorem hexVal_hex4 {n : Nat} (h : n < 65536) :
    hexVal (Nat.digitChar (n / 4096 % 16)) (Nat.digitChar (n / 256 % 16))
      (Nat.digitChar (n / 16 % 16)) (Nat.digitChar (n % 16)) = some n := by
  have h1 := hexDigitVal_digitChar (Nat.mod_lt (n / 4096) (by omega))
  have h2 := hexDigitVal_digitChar (Nat.mod_lt (n / 256) (by omega))
  have h3 := hexDigitVal_digitChar (Nat.mod_lt (n / 16) (by omega))
  have h4 := hexDigitVal_digitChar (Nat.mod_lt n (by omega))
  simp [hexVal, h1, h2, h3, h4]
  omega

/-- Every `Char` is a Unicode scalar value: below the surrogate block, or
above it and below 0x110000. -/
theorem char_scalar (c : Char) :
    c.toNat < 55296 ∨ (57343 < c.toNat ∧ c.toNat < 1114112) := c.valid

/-- The UTF-16 code units the `ensure_ascii` serializer emits for one
character: the scalar value itself on the BMP, a surrogate pair above it. -/
def unitsOf (c : Char) : List Nat :=
  if c.toNat < 65536 then [c.toNat]
  else [55296 + (c.toNat - 65536) / 1024, 56320 + (c.toNat - 65536) % 1024]

theorem parseStrBodyRaw_escapeChar (c : Char) {tail : List Char}
    {ns : List Nat} {r : List Char}
    (ih : parseStrBodyRaw tail = some (ns, r)) :
    parseStrBodyRaw (escapeChar c ++ tail) = some (unitsOf c ++ ns, r) := by
  by_cases h1 : c = '"'
  · subst h1
    rw [show escapeChar '"' ++ tail = '\\' :: '"' :: tail from rfl,
      parseStrBodyRaw.eq_def]
    simp [unescapeChar, ih, unitsOf]
  by_cases h2 : c = '\\'
  · subst h2
    rw [show escapeChar '\\' ++ tail = '\\' :: '\\' :: tail from rfl,
      parseStrBodyRaw.eq_def]
    simp [unescapeChar, ih, unitsOf]
  by_cases h3 : c = '\n'
  · subst h3
    rw [show escapeChar '\n' ++ tail = '\\' :: 'n' :: tail from rfl,
      parseStrBodyRaw.eq_def]
    simp [unescapeChar, ih, unitsOf]
  by_cases h4 : c = '\t'
  · subst h4
    rw [show escapeChar '\t' ++ tail = '\\' :: 't' :: tail from rfl,
      parseStrBodyRaw.eq_def]
    simp [unescapeChar, ih, unitsOf]
  by_cases h5 : c = '\r'
  · subst h5
    rw [show escapeChar '\r' ++ tail = '\\' :: 'r' :: tail from rfl,
      parseStrBodyRaw.eq_def]
    simp [unescapeChar, ih, unitsOf]
  by_cases h6 : c = '\x08'
  · subst h6
    rw [show escapeChar '\x08' ++ tail = '\\' :: 'b' :: tail from rfl,
      parseStrBodyRaw.eq_def]
    simp [unescapeChar, ih, unitsOf]
  by_cases h7 : c = '\x0c'
  · subst h7
    rw [show escapeChar '\x0c' ++ tail = '\\' :: 'f' :: tail from rfl,
      parseStrBodyRaw.eq_def]
    simp [unescapeChar, ih, unitsOf]
  rw [escapeChar, if_neg h1, if_neg h2, if_neg h3, if_neg h4, if_neg h5,
    if_neg h6, if_neg h7]
  by_cases h8 : c.toNat < 32
  · have hu : unitsOf c = [c.toNat] := by rw [unitsOf, if_pos (by omega)]
    have hh := hexVal_hex4 (n := c.toNat) (by omega)
    rw [if_pos h8, hex4,
      show ('\\' :: 'u' ::
          [Nat.digitChar (c.toNat / 4096 % 16), Nat.digitChar (c.toNat / 256 % 16),
           Nat.digitChar (c.toNat / 16 % 16), Nat.digitChar (c.toNat % 16)]) ++ tail =
        '\\' :: 'u' :: Nat.digitChar (c.toNat / 4096 % 16) ::
          Nat.digitChar (c.toNat / 256 % 16) :: Nat.digitChar (c.toNat / 16 % 16) ::
          Nat.digitChar (c.toNat % 16) :: tail from rfl,
      parseStrBodyRaw.eq_def]
    simp [hh, ih, hu]
  rw [if_neg h8]
  by_cases h9 : c.toNat < 127
  · have hu : unitsOf c = [c.toNat] := by rw [unitsOf, if_pos (by omega)]
    rw [if_pos h9, show ([c] : List Char) ++ tail = c :: tail from rfl,
      parseStrBodyRaw.eq_def]
    simp [h1, h2, h8, ih, hu]
  rw [if_neg h9]
  by_cases h10 : c.toNat < 65536
  · have hu : unitsOf c = [c.toNat] := by rw [unitsOf, if_pos h10]
    have hh := hexVal_hex4 (n := c.toNat) h10
    rw [if_pos h10, hex4,
      show ('\\' :: 'u' ::
          [Nat.digitChar (c.toNat / 4096 % 16), Nat.digitChar (c.toNat / 256 % 16),
           Nat.digitChar (c.toNat / 16 % 16), Nat.digitChar (c.toNat % 16)]) ++ tail =
        '\\' :: 'u' :: Nat.digitChar (c.toNat / 4096 % 16) ::
          Nat.digitChar (c.toNat / 256 % 16) :: Nat.digitChar (c.toNat / 16 % 16) ::
          Nat.digitChar (c.toNat % 16) :: tail from rfl,
      parseStrBodyRaw.eq_def]
    simp [hh, ih, hu]
  · have hup : 65536 ≤ c.toNat ∧ c.toNat < 1114112 := by
      rcases char_scalar c with h | h <;> omega
    have hu : unitsOf c =
        [55296 + (c.toNat - 65536) / 1024, 56320 + (c.toNat - 65536) % 1024] := by
      rw [unitsOf, if_neg (by omega)]
    have hhiv := hexVal_hex4 (n := 55296 + (c.toNat - 65536) / 1024) (by omega)
    have hlov := hexVal_hex4 (n := 56320 + (c.toNat - 65536) % 1024) (by omega)
    have hmid : parseStrBodyRaw
        ('\\' :: 'u' :: Nat.digitChar ((56320 + (c.toNat - 65536) % 1024) / 4096 % 16) ::
          Nat.digitChar ((56320 + (c.toNat - 65536) % 1024) / 256 % 16) ::
          Nat.digitChar ((56320 + (c.toNat - 65536) % 1024) / 16 % 16) ::
          Nat.digitChar ((56320 + (c.toNat - 65536) % 1024) % 16) :: tail) =
        some ((56320 + (c.toNat - 65536) % 1024) :: ns, r) := by
      rw [parseStrBodyRaw.eq_def]
      simp [hlov, ih]
    rw [if_neg h10, hex4, hex4,
      show (('\\' :: 'u' ::
          [Nat.digitChar ((55296 + (c.toNat - 65536) / 1024) / 4096 % 16),
           Nat.digitChar ((55296 + (c.toNat - 65536) / 1024) / 256 % 16),
           Nat.digitChar ((55296 + (c.toNat - 65536) / 1024) / 16 % 16),
           Nat.digitChar ((55296 + (c.toNat - 65536) / 1024) % 16)]) ++
          ('\\' :: 'u' ::
          [Nat.digitChar ((56320 + (c.toNat - 65536) % 1024) / 4096 % 16),
           Nat.digitChar ((56320 + (c.toNat - 65536) % 1024) / 256 % 16),
           Nat.digitChar ((56320 + (c.toNat - 65536) % 1024) / 16 % 16),
           Nat.digitChar ((56320 + (c.toNat - 65536) % 1024) % 16)])) ++ tail =
        '\\' :: 'u' :: Nat.digitChar ((55296 + (c.toNat - 65536) / 1024) / 4096 % 16) ::
          Nat.digitChar ((55296 + (c.toNat - 65536) / 1024) / 256 % 16) ::
          Nat.digitChar ((55296 + (c.toNat - 65536) / 1024) / 16 % 16) ::
          Nat.digitChar ((55296 + (c.toNat - 65536) / 1024) % 16) ::
          ('\\' :: 'u' :: Nat.digitChar ((56320 + (c.toNat - 65536) % 1024) / 4096 % 16) ::
          Nat.digitChar ((56320 + (c.toNat - 65536) % 1024) / 256 % 16) ::
          Nat.digitChar ((56320 + (c.toNat - 65536) % 1024) / 16 % 16) ::
          Nat.digitChar ((56320 + (c.toNat - 65536) % 1024) % 16) :: tail) from rfl,
      parseStrBodyRaw.eq_def]
    simp [hhiv, hmid, hu]

theorem combineSurrogates_unitsOf (c : Char) {ns : List Nat} {s : List Char}
    (ih : combineSurrogates ns = some s) :
    combineSurrogates (unitsOf c ++ ns) = some (c :: s) := by
  by_cases h10 : c.toNat < 65536
  · have hns : ¬(55296 ≤ c.toNat ∧ c.toNat ≤ 56319) ∧
        ¬(56320 ≤ c.toNat ∧ c.toNat ≤ 57343) := by
      rcases char_scalar c with h | h
      · exact ⟨by omega, by omega⟩
      · exact ⟨by omega, by omega⟩
    rw [unitsOf, if_pos h10,
      show ([c.toNat] : List Nat) ++ ns = c.toNat :: ns from rfl,
      combineSurrogates.eq_def]
    simp [hns.1, hns.2, ih, Char.ofNat_toNat]
  · have hup : 65536 ≤ c.toNat ∧ c.toNat < 1114112 := by
      rcases char_scalar c with h | h <;> omega
    have hcomb : 65536 + (55296 + (c.toNat - 65536) / 1024 - 55296) * 1024 +
        (56320 + (c.toNat - 65536) % 1024 - 56320) = c.toNat := by omega
    rw [unitsOf, if_neg (by omega),
      show ([55296 + (c.toNat - 65536) / 1024,
             56320 + (c.toNat - 65536) % 1024] : List Nat) ++ ns =
        (55296 + (c.toNat - 65536) / 1024) ::
          (56320 + (c.toNat - 65536) % 1024) :: ns from rfl,
      combineSurrogates.eq_def]
    simp [show 55296 ≤ 55296 + (c.toNat - 65536) / 1024 ∧
        55296 + (c.toNat - 65536) / 1024 ≤ 56319 by omega,
      show 56320 ≤ 56320 + (c.toNat - 65536) % 1024 ∧
        56320 + (c.toNat - 65536) % 1024 ≤ 57343 by omega,
      ih, hcomb, Char.ofNat_toNat]
    have hcomb2 : 65536 + (c.toNat - 65536) / 1024 * 1024 +
        (c.toNat - 65536) % 1024 = c.toNat := by omega
    rw [hcomb2]
    exact Char.ofNat_toNat c

/-- The serialized form of any string body parses back to that body. -/
theorem parseStrBody_escape (s : List Char) (rest : List Char) :
    parseStrBody (escapeChars s ++ '"' :: rest) = some (s, rest) := by
  suffices h : ∃ ns, parseStrBodyRaw (escapeChars s ++ '"' :: rest) =
      some (ns, rest) ∧ combineSurrogates ns = some s by
    obtain ⟨ns, h1, h2⟩ := h
    simp [parseStrBody, h1, h2]
  induction s with
  | nil =>
    refine ⟨[], ?_, rfl⟩
    rw [show escapeChars [] ++ '"' :: rest = '"' :: rest from rfl,
      parseStrBodyRaw.eq_def]
    simp
  | cons c cs ih =>
    obtain ⟨ns, h1, h2⟩ := ih
    refine ⟨unitsOf c ++ ns, ?_, combineSurrogates_unitsOf c h2⟩
    rw [escapeChars, List.append_assoc]
    exact parseStrBodyRaw_escapeChar c h1

/-- The digit sequence `str(n)` prints, most significant first. -/
def natDigits (n : Nat) : List Nat :=
  if n = 0 then [0] else (Nat.digits 10 n).reverse

theorem natToCharsAux_eq (fuel : Nat) :
    ∀ n acc, n ≤ fuel →
      natToCharsAux fuel n acc =
        ((Nat.digits 10 n).reverse.map Nat.digitChar) ++ acc := by
  induction fuel with
  | zero =>
    intro n acc h
    have hn : n = 0 := by omega
    subst hn
    simp [natToCharsAux]
  | succ fuel ih =>
    intro n acc h
    by_cases hn : n = 0
    · subst hn; simp [natToCharsAux]
    · have hrec : n / 10 ≤ fuel := by
        have := Nat.div_lt_self (Nat.pos_of_ne_zero hn) (show 1 < 10 by omega)
        omega
      rw [natToCharsAux, if_neg hn, ih _ _ hrec,
        Nat.digits_def' (show 1 < 10 by omega) (Nat.pos_of_ne_zero hn)]
      simp

theorem natToChars_eq (n : Nat) :
    natToChars n = (natDigits n).map Nat.digitChar := by
  by_cases hn : n = 0
  · subst hn; rfl
  · rw [natToChars, if_neg hn, natDigits, if_neg hn,
      natToCharsAux_eq n n [] le_rfl, List.append_nil]

theorem natDigits_lt (n : Nat) : ∀ d ∈ natDigits n, d < 10 := by
  intro d hd
  rw [natDigits] at hd
  by_cases hn : n = 0
  · rw [if_pos hn] at hd
    simp at hd
    omega
  · rw [if_neg hn] at hd
    exact Nat.digits_lt_base (by omega) (List.mem_reverse.mp hd)

theorem natDigits_ne_nil (n : Nat) : natDigits n ≠ [] := by
  rw [natDigits]
  by_cases hn : n = 0
  · simp [hn]
  · rw [if_neg hn]
    simp [Nat.digits_ne_nil_iff_ne_zero, hn]

theorem digitChar_isDigit {d : Nat} (h : d < 10) :
    (Nat.digitChar d).isDigit = true := by
  have all : ∀ m, m < 10 → (Nat.digitChar m).isDigit = true := by decide
  exact all d h

theorem charToDigit_digitChar {d : Nat} (h : d < 10) :
    charToDigit (Nat.digitChar d) = d := by
  have all : ∀ m, m < 10 → charToDigit (Nat.digitChar m) = m := by decide
  exact all d h

theorem noDigitHead_cons {c : Char} {t : List Char} :
    noDigitHead (c :: t) ↔ c.isDigit = false := by
  simp [noDigitHead]

theorem takeDigits_map (ds : List Nat) (h : ∀ d ∈ ds, d < 10) :
    ∀ rest, noDigitHead rest →
      takeDigits (ds.map Nat.digitChar ++ rest) = (ds, rest) := by
  induction ds with
  | nil =>
    intro rest hrest
    cases rest with
    | nil => rfl
    | cons c t =>
      have hc : c.isDigit = false := noDigitHead_cons.mp hrest
      rw [List.map_nil, List.nil_append, takeDigits.eq_def]
      simp [hc]
  | cons d ds' ih =>
    intro rest hrest
    have hd := h d (by simp)
    rw [List.map_cons, List.cons_append, takeDigits.eq_def]
    simp [digitChar_isDigit hd, charToDigit_digitChar hd,
      ih (fun x hx => h x (by simp [hx])) rest hrest]

theorem digitsToNat_natDigits (n : Nat) : digitsToNat (natDigits n) = n := by
  by_cases hn : n = 0
  · subst hn; rfl
  · rw [natDigits, if_neg hn, digitsToNat, List.foldl_reverse]
    have key : ∀ l : List Nat,
        l.foldr (fun x y => y * 10 + x) 0 = Nat.ofDigits 10 l := by
      intro l
      induction l with
      | nil => simp [Nat.ofDigits_nil]
      | cons d t iht =>
        simp [Nat.ofDigits_cons, iht]
        omega
    rw [key]
    exact_mod_cast Nat.ofDigits_digits 10 n

theorem digitChar_ne_dash {d : Nat} (h : d < 10) : ¬Nat.digitChar d = '-' := by
  have all : ∀ m, m < 10 → ¬Nat.digitChar m = '-' := by decide
  exact all d h

theorem noLeadZero_natDigits (n : Nat) : noLeadZero (natDigits n) = true := by
  by_cases hn : n = 0
  · subst hn; rfl
  · obtain ⟨d, ds, hds⟩ := List.exists_cons_of_ne_nil (natDigits_ne_nil n)
    have h1 : Nat.digits 10 n = ds.reverse ++ [d] := by
      have h2 := congrArg List.reverse hds
      rw [natDigits, if_neg hn] at h2
      simpa using h2
    have e1 : (Nat.digits 10 n).getLast? = some d := by
      rw [h1, List.getLast?_concat]
    have e2 := List.getLast?_eq_getLast (Nat.digits 10 n)
      (Nat.digits_ne_nil_iff_ne_zero.mpr hn)
    rw [e1] at e2
    have hd0 : d ≠ 0 := by
      injection e2 with e3
      rw [e3]
      exact Nat.getLast_digit_ne_zero 10 hn
    rw [hds]
    simp [noLeadZero, hd0]

theorem parseNumber_intToChars (i : Int) (rest : List Char)
    (h : noDigitHead rest) :
    parseNumber (intToChars i ++ rest) = some (.num i, rest) := by
  have hlt := natDigits_lt i.natAbs
  have htd := takeDigits_map (natDigits i.natAbs) hlt rest h
  have hnil := natDigits_ne_nil i.natAbs
  have hval := digitsToNat_natDigits i.natAbs
  obtain ⟨d, ds, hds⟩ := List.exists_cons_of_ne_nil hnil
  have hd : d < 10 := hlt d (by rw [hds]; simp)
  rw [hds] at htd hval
  by_cases hi : i < 0
  · have hint : -((digitsToNat (d :: ds) : Nat) : Int) = i := by
      rw [hval]; omega
    have hlz : noLeadZero (d :: ds) = true := by
      rw [← hds]; exact noLeadZero_natDigits i.natAbs
    rw [intToChars, if_pos hi, natToChars_eq, hds, List.cons_append,
      parseNumber.eq_def]
    rw [List.map_cons, List.cons_append] at htd
    simp [htd, hint, hlz]
  · have hint : ((digitsToNat (d :: ds) : Nat) : Int) = i := by
      rw [hval]; omega
    have hlz : noLeadZero (d :: ds) = true := by
      rw [← hds]; exact noLeadZero_natDigits i.natAbs
    rw [intToChars, if_neg hi, natToChars_eq, hds, List.map_cons,
      List.cons_append, parseNumber.eq_def]
    rw [List.map_cons, List.cons_append] at htd
    simp [digitChar_ne_dash hd, htd, hint, hlz]

theorem parseAtomFn_serializeAtom (a : JAtom) (rest : List Char)
    (hnd : noDigitHead rest) :
    parseAtomFn (serializeAtom a ++ rest) = some (a, rest) := by
  cases a with
  | null =>
    rw [show serializeAtom .null ++ rest = 'n' :: (['u', 'l', 'l'] ++ rest)
      from rfl, parseAtomFn.eq_def]
    simp [dropLit.eq_def]
  | bool b =>
    cases b with
    | true =>
      rw [show serializeAtom (.bool true) ++ rest =
        't' :: (['r', 'u', 'e'] ++ rest) from rfl, parseAtomFn.eq_def]
      simp [dropLit.eq_def]
    | false =>
      rw [show serializeAtom (.bool false) ++ rest =
        'f' :: (['a', 'l', 's', 'e'] ++ rest) from rfl, parseAtomFn.eq_def]
      simp [dropLit.eq_def]
  | str s =>
    rw [show serializeAtom (.str s) ++ rest =
      '"' :: (escapeChars s.data ++ '"' :: rest) by
        simp [serializeAtom, strChars], parseAtomFn.eq_def]
    simp [parseStrBody_escape s.data rest]
  | num i =>
    have hp := parseNumber_intToChars i rest hnd
    by_cases hi : i < 0
    · rw [show serializeAtom (.num i) ++ rest =
        '-' :: (natToChars i.natAbs ++ rest) by
          simp [serializeAtom, intToChars, if_pos hi], parseAtomFn.eq_def]
      rw [intToChars, if_pos hi, List.cons_append] at hp
      simp only [reduceIte]
      exact hp
    · have hlt := natDigits_lt i.natAbs
      obtain ⟨d, ds, hds⟩ := List.exists_cons_of_ne_nil (natDigits_ne_nil i.natAbs)
      have hd : d < 10 := hlt d (by rw [hds]; simp)
      have hq : ¬Nat.digitChar d = '"' ∧ ¬Nat.digitChar d = 'n' ∧
          ¬Nat.digitChar d = 't' ∧ ¬Nat.digitChar d = 'f' := by
        have all : ∀ m, m < 10 → ¬Nat.digitChar m = '"' ∧
            ¬Nat.digitChar m = 'n' ∧ ¬Nat.digitChar m = 't' ∧
            ¬Nat.digitChar m = 'f' := by decide
        exact all d hd
      rw [show serializeAtom (.num i) ++ rest =
        natToChars i.natAbs ++ rest by
          simp [serializeAtom, intToChars, if_neg hi],
        natToChars_eq, hds, List.map_cons, List.cons_append,
        parseAtomFn.eq_def]
      rw [intToChars, if_neg hi, natToChars_eq, hds, List.map_cons,
        List.cons_append] at hp
      simp only [hq.1, hq.2.1, hq.2.2.1, hq.2.2.2, if_false]
      exact hp

theorem serializeEntries_cons (kv : String × JAtom) (tl : JObj) :
    ∃ t, serializeEntries (kv :: tl) = '"' :: t := by
  cases tl with
  | nil => exact ⟨_, rfl⟩
  | cons kv2 tl' => exact ⟨_, rfl⟩

theorem parseEntries_serializeEntries (es : JObj) :
    ∀ fuel rest, es ≠ [] → es.length ≤ fuel →
      parseEntries fuel (serializeEntries es ++ '}' :: rest) =
        some (es, rest) := by
  induction es with
  | nil => intro fuel rest hne; exact absurd rfl hne
  | cons kv tl ih =>
    intro fuel rest _ hlen
    obtain ⟨f, rfl⟩ : ∃ f, fuel = f + 1 :=
      ⟨fuel - 1, by simp at hlen; omega⟩
    obtain ⟨k, v⟩ := kv
    cases tl with
    | nil =>
      have hnd : noDigitHead ('}' :: rest) := noDigitHead_cons.mpr (by decide)
      rw [show serializeEntries [(k, v)] ++ '}' :: rest =
        '"' :: (escapeChars k.data ++
          '"' :: (':' :: (serializeAtom v ++ '}' :: rest))) by
          simp [serializeEntries, serializeEntry, strChars]]
      rw [parseEntries.eq_def]
      simp [parseStrBody_escape k.data,
        parseAtomFn_serializeAtom v _ hnd]
    | cons kv2 tl' =>
      have hnd : noDigitHead
          (',' :: (serializeEntries (kv2 :: tl') ++ '}' :: rest)) :=
        noDigitHead_cons.mpr (by decide)
      have hIH := ih f rest (by simp) (by simp at hlen ⊢; omega)
      rw [show serializeEntries ((k, v) :: kv2 :: tl') ++ '}' :: rest =
        '"' :: (escapeChars k.data ++ '"' :: (':' :: (serializeAtom v ++
          ',' :: (serializeEntries (kv2 :: tl') ++ '}' :: rest)))) by
          simp [serializeEntries, serializeEntry, strChars]]
      rw [parseEntries.eq_def]
      simp [parseStrBody_escape k.data,
        parseAtomFn_serializeAtom v _ hnd, hIH]

theorem parseObjAt_serializeObj (o : JObj) (fuel : Nat) (rest : List Char)
    (hlen : o.length ≤ fuel) :
    parseObjAt fuel (serializeObj o ++ rest) = some (o, rest) := by
  cases o with
  | nil =>
    rw [show serializeObj [] ++ rest = '{' :: ('}' :: rest) by
      simp [serializeObj, serializeEntries]]
    rw [parseObjAt.eq_def]
    simp
  | cons kv tl =>
    obtain ⟨t, ht⟩ := serializeEntries_cons kv tl
    have hX : serializeEntries (kv :: tl) ++ '}' :: rest =
        '"' :: (t ++ '}' :: rest) := by rw [ht]; rfl
    have hPE := parseEntries_serializeEntries (kv :: tl) fuel rest
      (by simp) hlen
    rw [hX] at hPE
    rw [show serializeObj (kv :: tl) ++ rest =
      '{' :: (serializeEntries (kv :: tl) ++ '}' :: rest) by
        simp [serializeObj]]
    rw [parseObjAt.eq_def, hX]
    simp [hPE]

/-- The fuel `parseElems` needs for a dataset. -/
def elemsFuel : List JObj → Nat
  | [] => 0
  | o :: os => o.length + 1 + elemsFuel os

theorem serializeElems_cons (o : JObj) (tl : List JObj) :
    ∃ t, serializeElems (o :: tl) = '{' :: t := by
  cases tl with
  | nil => exact ⟨_, rfl⟩
  | cons o2 tl' => exact ⟨_, rfl⟩

theorem parseElems_serializeElems (objs : List JObj) :
    ∀ fuel rest, objs ≠ [] → elemsFuel objs ≤ fuel →
      parseElems fuel (serializeElems objs ++ ']' :: rest) =
        some (objs, rest) := by
  induction objs with
  | nil => intro _ _ h; exact absurd rfl h
  | cons o tl ih =>
    intro fuel rest _ hfuel
    obtain ⟨f, rfl⟩ : ∃ f, fuel = f + 1 :=
      ⟨fuel - 1, by simp [elemsFuel] at hfuel; omega⟩
    have holen : o.length ≤ f := by simp [elemsFuel] at hfuel; omega
    cases tl with
    | nil =>
      have hPO := parseObjAt_serializeObj o f (']' :: rest) holen
      rw [show serializeElems [o] ++ ']' :: rest =
        serializeObj o ++ ']' :: rest by simp [serializeElems]]
      rw [parseElems.eq_def]
      simp [hPO]
    | cons o2 tl' =>
      have hPO := parseObjAt_serializeObj o f
        (',' :: (serializeElems (o2 :: tl') ++ ']' :: rest)) holen
      have hIH := ih f rest (by simp)
        (by simp [elemsFuel] at hfuel ⊢; omega)
      rw [show serializeElems (o :: o2 :: tl') ++ ']' :: rest =
        serializeObj o ++
          (',' :: (serializeElems (o2 :: tl') ++ ']' :: rest)) by
        simp [serializeElems]]
      rw [parseElems.eq_def]
      simp [hPO, hIH]

theorem length_serializeEntries (es : JObj) :
    es.length ≤ (serializeEntries es).length := by
  induction es with
  | nil => simp [serializeEntries]
  | cons kv tl ih =>
    cases tl with
    | nil => simp [serializeEntries, serializeEntry, strChars]
    | cons kv2 tl' =>
      rw [show serializeEntries (kv :: kv2 :: tl') =
        serializeEntry kv ++ ',' :: serializeEntries (kv2 :: tl') from rfl]
      have h1 : 1 ≤ (serializeEntry kv).length := by
        simp [serializeEntry, strChars]
      simp only [List.length_append, List.length_cons] at *
      omega

theorem elemsFuel_le (objs : List JObj) :
    elemsFuel objs ≤ (serializeElems objs).length + 1 := by
  induction objs with
  | nil => simp [elemsFuel, serializeElems]
  | cons o tl ih =>
    have hobj : o.length + 1 ≤ (serializeObj o).length := by
      have := length_serializeEntries o
      simp only [serializeObj, List.length_cons, List.length_append,
        List.length_singleton]
      omega
    cases tl with
    | nil =>
      rw [show serializeElems [o] = serializeObj o from rfl]
      simp [elemsFuel]
      omega
    | cons o2 tl' =>
      rw [show serializeElems (o :: o2 :: tl') =
        serializeObj o ++ ',' :: serializeElems (o2 :: tl') from rfl]
      simp only [elemsFuel, List.length_append, List.length_cons] at *
      omega

/-- C4: round-trip — deserializing the written output artifact yields
exactly the projected sequence, for every sequence of records. -/
theorem c4_serialize_parse_roundtrip (objs : List JObj) :
    parseStops (serializeArr objs) = some objs := by
  cases objs with
  | nil => rfl
  | cons o tl =>
    obtain ⟨t, ht⟩ := serializeElems_cons o tl
    have hfe : elemsFuel (o :: tl) ≤ (serializeArr (o :: tl)).length := by
      have := elemsFuel_le (o :: tl)
      simp only [serializeArr, List.length_cons, List.length_append,
        List.length_singleton] at *
      omega
    have hPE := parseElems_serializeElems (o :: tl)
      (serializeArr (o :: tl)).length [] (by simp) hfe
    have hX : serializeElems (o :: tl) ++ ']' :: ([] : List Char) =
        '{' :: (t ++ [']']) := by rw [ht]; rfl
    have harr : serializeArr (o :: tl) = '[' :: ('{' :: (t ++ [']'])) := by
      rw [serializeArr,
        show serializeElems (o :: tl) ++ ([']'] : List Char) =
          '{' :: (t ++ [']']) by rw [ht]; rfl]
    rw [harr] at hPE
    rw [hX] at hPE
    simp only [List.length_cons, List.length_append, List.length_singleton,
      List.length_nil, Nat.zero_add] at hPE
    rw [harr, parseStops.eq_def]
    simp [hPE]

/-- A record with non-ASCII, astral and control characters in its string
data, exercising the `\uXXXX` and surrogate-pair escapes. -/
def uLite : JObj :=
  [("i", .str "42A"), ("n", .str "Praça Martim Moniz 😀"), ("l", .num 38),
   ("o", .num (-9)), ("c", .str "São Domingos\u0001\n")]

theorem c4_witness :
    parseStops (serializeArr [wLite]) = some [wLite] ∧
    parseStops (serializeArr [uLite]) = some [uLite] :=
  ⟨c4_serialize_parse_roundtrip [wLite], c4_serialize_parse_roundtrip [uLite]⟩
